import Mathlib

/-
Verification of `stub_package.py`, a tool that renders condensed Python
stubs (signatures, docstrings, structure) with implementation bodies elided.

The development shallowly embeds the relevant parts of the program:
expressions that the program only ever passes through `ast.unparse` are
modelled as their already-unparsed text (a `String`); `ast.get_source_segment`
results are stored in the nodes as `Option String`.  Python's string
builtins (`str.split`, `str.strip`, `str.rstrip`, `str.endswith`,
`str.startswith`, string `<`) are modelled by structurally recursive
functions over `String.data` so that every definition evaluates inside the
kernel.
-/

/-! ## Models of the Python string builtins used by the program -/

/-- Whitespace set of Python's `str.strip` / `str.rstrip` for ASCII text. -/
def py_ws (c : Char) : Bool :=
  c == ' ' || c == '\t' || c == '\n' || c == '\r' || c == '\x0b' || c == '\x0c'

/-- Model of Python `str.split(sep)` for a one-character separator, on
character lists: every occurrence of the separator splits, empty pieces are
kept, and splitting the empty string yields one empty piece. -/
def py_split_chars (c : Char) : List Char → List (List Char)
  | [] => [[]]
  | x :: xs =>
    match py_split_chars c xs with
    | [] => [[]]
    | h :: t => if x == c then [] :: h :: t else (x :: h) :: t

/-- Model of Python `s.split(c)` for a one-character separator `c`. -/
def py_split (s : String) (c : Char) : List String :=
  (py_split_chars c s.data).map String.mk

/-- Model of Python `str.strip()` (for the whitespace set `py_ws`). -/
def py_strip (s : String) : String :=
  String.mk (((s.data.dropWhile py_ws).reverse.dropWhile py_ws).reverse)

/-- Model of Python `str.rstrip()` (for the whitespace set `py_ws`). -/
def py_rstrip (s : String) : String :=
  String.mk ((s.data.reverse.dropWhile py_ws).reverse)

/-- Model of Python `s.endswith(suf)`. -/
def py_endswith (s suf : String) : Bool :=
  suf.data.isSuffixOf s.data

/-- Model of Python `s.startswith(p)`. -/
def py_startswith (s p : String) : Bool :=
  p.data.isPrefixOf s.data

/-- Helper for `py_contains`: does `sub` occur as a contiguous run in the
character list? -/
def py_contains_chars (sub : List Char) : List Char → Bool
  | [] => sub.isEmpty
  | c :: rest => sub.isPrefixOf (c :: rest) || py_contains_chars sub rest

/-- Model of Python `sub in s` (substring containment). -/
def py_contains (sub s : String) : Bool :=
  py_contains_chars sub.data s.data

/-- Model of Python string comparison `<` (lexicographic on code points;
a strict prefix compares smaller). -/
def py_lt_chars : List Char → List Char → Bool
  | _, [] => false
  | [], _ :: _ => true
  | a :: as, b :: bs => if a < b then true else if b < a then false else py_lt_chars as bs

/-- Model of Python `a < b` on strings. -/
def py_str_lt (a b : String) : Bool :=
  py_lt_chars a.data b.data

/-- Model of Python tuple comparison `<` on tuples of strings
(lexicographic; a strict prefix compares smaller). -/
def py_tuple_lt : List String → List String → Bool
  | _, [] => false
  | [], _ :: _ => true
  | a :: as, b :: bs =>
    if py_str_lt a b then true else if py_str_lt b a then false else py_tuple_lt as bs

/-- Stable insertion of `x` into `l`: `x` goes in front of the first element
it is strictly below, hence after all elements it ties with. -/
def py_insert (lt : α → α → Bool) (x : α) : List α → List α
  | [] => [x]
  | y :: ys => if lt x y then x :: y :: ys else y :: py_insert lt x ys

/-- Model of Python `sorted(l, key=...)` folded into a comparison `lt` on the
already-keyed elements: a stable sort by repeated insertion. -/
def py_sorted (lt : α → α → Bool) (l : List α) : List α :=
  l.foldl (fun acc x => py_insert lt x acc) []

/-! ## Signature Reconstructor: `format_arguments`

An `ast.arg` has a name (`arg.arg`) and an optional annotation, which the
program renders only through `ast.unparse`; the annotation is therefore
modelled as its unparsed text.  Likewise default expressions are modelled as
their unparsed text. -/

/-- Model of `ast.arg`: the parameter name and the (unparsed) annotation. -/
structure Arg where
  arg : String
  annot : Option String
deriving DecidableEq, Repr

/-- Model of `ast.arguments` with the expressions already unparsed. -/
structure Arguments where
  posonlyargs : List Arg
  args : List Arg
  vararg : Option Arg
  kwonlyargs : List Arg
  kw_defaults : List (Option String)
  kwarg : Option Arg
  defaults : List String
deriving DecidableEq, Repr

/-- The `s = arg.arg; if arg.annotation: s += ": " + unparse(...)` step that
`format_arguments` performs for every parameter. -/
def format_arg_base (a : Arg) : String :=
  a.arg ++ (match a.annot with | some t => ": " ++ t | none => "")

/-- Body of the positional loop of `format_arguments` for the parameter at
index `i` of `posonlyargs + args`: the Python code computes
`default_idx = i - (num_pos - num_defaults)` in `int` arithmetic and appends
`" = " + unparse(defaults[default_idx])` when `default_idx >= 0`. -/
def format_pos_item (node : Arguments) (i : Nat) (a : Arg) : String :=
  let num_pos := (node.posonlyargs ++ node.args).length
  let num_defaults := node.defaults.length
  let default_idx : Int := (i : Int) - ((num_pos : Int) - (num_defaults : Int))
  if 0 ≤ default_idx then
    format_arg_base a ++ " = " ++ node.defaults.getD default_idx.toNat ""
  else
    format_arg_base a

/-- The fragments contributed by the positional loop of `format_arguments`,
including the `"/"` marker appended right after the parameter at index
`num_posonly - 1` when `num_posonly > 0`. -/
def format_pos_parts (node : Arguments) : List String :=
  let num_posonly := node.posonlyargs.length
  let all_pos := node.posonlyargs ++ node.args
  all_pos.enum.flatMap (fun p =>
    if p.1 == num_posonly - 1 && !(num_posonly == 0) then
      [format_pos_item node p.1 p.2, "/"]
    else
      [format_pos_item node p.1 p.2])

/-- The fragment contributed by the `vararg` / bare-`*` step of
`format_arguments`. -/
def format_star_parts (node : Arguments) : List String :=
  match node.vararg with
  | some v => ["*" ++ format_arg_base v]
  | none => if node.kwonlyargs.isEmpty then [] else ["*"]

/-- The fragments contributed by the keyword-only loop of `format_arguments`:
the default for the parameter at index `i` is `kw_defaults[i]`, rendered
exactly when it is not `None`. -/
def format_kwonly_parts (node : Arguments) : List String :=
  node.kwonlyargs.enum.map (fun p =>
    match node.kw_defaults.getD p.1 none with
    | some d => format_arg_base p.2 ++ " = " ++ d
    | none => format_arg_base p.2)

/-- The fragment contributed by the `kwarg` step of `format_arguments`. -/
def format_kwarg_parts (node : Arguments) : List String :=
  match node.kwarg with
  | some k => ["**" ++ format_arg_base k]
  | none => []

/-- The full `parts` list built by `format_arguments`. -/
def format_all_parts (node : Arguments) : List String :=
  format_pos_parts node ++ format_star_parts node ++
    format_kwonly_parts node ++ format_kwarg_parts node

/-- Model of `format_arguments`: the `parts` fragments joined with `", "`. -/
def format_arguments (node : Arguments) : String :=
  String.intercalate ", " (format_all_parts node)

/-! ## Docstring Formatter: `_format_docstring` -/

/-- The `lines = doc.split("\n")` step of `_format_docstring`. -/
def _docstring_lines (doc : String) : List String :=
  py_split doc '\n'

/-- The reconstruction loop of `_format_docstring` for the multi-line case:
`result = f'{...}"""{...}\n'` followed by, per remaining line, either
`indent + line + "\n"` (non-blank line) or a bare `"\n"` (blank line). -/
def _reconstructed_block (doc indent : String) : String :=
  let lines := _docstring_lines doc
  (lines.drop 1).foldl
    (fun result line =>
      if py_strip line == "" then result ++ "\n" else result ++ indent ++ line ++ "\n")
    (indent ++ "\"\"\"" ++ lines.headD "" ++ "\n")

/-- Model of `_format_docstring`: single-line docstrings become
`indent + triple-quote + doc + triple-quote + newline`; multi-line docstrings
are reconstructed by `_reconstructed_block` and a closing `indent + triple-quote`
line is appended when `result.rstrip()` does not already end in `"""`. -/
def _format_docstring (doc indent : String) : String :=
  let lines := _docstring_lines doc
  if lines.length == 1 then
    indent ++ "\"\"\"" ++ doc ++ "\"\"\"" ++ "\n"
  else
    let result := _reconstructed_block doc indent
    if py_endswith (py_rstrip result) "\"\"\"" then result
    else result ++ indent ++ "\"\"\"" ++ "\n"

/-- Modelled from the spec's words (for comparison with the code, which
instead tests `result.rstrip().endswith('\x22\x22\x22')`): a block "ends with
a closing triple-quote on its own line" when its last non-blank line is the
closing triple-quote, up to surrounding whitespace. -/
def ends_with_closing_quote_line (block : String) : Bool :=
  match ((py_split block '\n').filter (fun l => !(py_strip l == ""))).getLast? with
  | some l => py_strip l == "\"\"\""
  | none => false

/-! ## Privacy predicate -/

/-- Model of `_is_private`: starts with `_` but is not a dunder. -/
def _is_private (name : String) : Bool :=
  py_startswith name "_" && !(py_startswith name "__" && py_endswith name "__")

/-! ## Tree Walker ordering: `_sort_key` and the sort in `stub_package`

Paths are modelled as their list of parts relative to the walked root
(`path.relative_to(root).parts`). -/

/-- Model of `_sort_key`: the relative path's parts with a final
`__init__.py` component replaced by `"\x00"`, which sorts before any real
filename. -/
def _sort_key : List String → List String
  | [] => []
  | [fname] => [if fname == "__init__.py" then "\x00" else fname]
  | p :: rest => p :: _sort_key rest

/-- Model of the `sorted(path.rglob("*.py"), key=lambda p: _sort_key(p, path))`
call in `stub_package`: Python's stable sort under `<` of the keys. -/
def sorted_py_files (files : List (List String)) : List (List String) :=
  py_sorted (fun a b => py_tuple_lt (_sort_key a) (_sort_key b)) files

/-! ## Declaration nodes

A mutual inductive family models the statement shapes `stub_class` and
`stub_function` inspect: bare string-literal expressions, (annotated)
assignments (carrying their optional `ast.get_source_segment` text and their
`ast.unparse` fallback), nested function and class declarations, and a
catch-all for every other statement kind (which the renderer ignores).
`StmtList` is the body sequence, kept inside the family so that the mutual
recursion below is structural. -/

mutual
inductive Stmt where
  | exprStr (s : String)
  | annAssign (seg : Option String) (unp : String)
  | assign (seg : Option String) (unp : String)
  | funcDef (f : FuncNode)
  | classDef (c : ClassNode)
  | other

inductive FuncNode where
  | mk (is_async : Bool) (name : String) (args : Arguments) (decorator_list : List String)
      (returns : Option String) (lineno : Nat) (end_lineno : Nat) (body : StmtList)

inductive ClassNode where
  | mk (name : String) (bases : List String) (keywords : List (Option String × String))
      (decorator_list : List String) (lineno : Nat) (end_lineno : Nat) (body : StmtList)

inductive StmtList where
  | nil
  | cons (s : Stmt) (rest : StmtList)
end

/-- Name of a function declaration node. -/
def FuncNode.name : FuncNode → String
  | .mk _ n _ _ _ _ _ _ => n

/-- Body of a function declaration node. -/
def FuncNode.body : FuncNode → StmtList
  | .mk _ _ _ _ _ _ _ b => b

/-- Name of a class declaration node. -/
def ClassNode.name : ClassNode → String
  | .mk n _ _ _ _ _ _ => n

/-- Model of `get_docstring`: the value of a leading bare string-literal
expression of a body, if any. -/
def get_docstring : StmtList → Option String
  | .cons (.exprStr s) _ => some s
  | _ => none

/-- The `if segment: ... else: unparse(...)` pattern used for assignments:
`ast.get_source_segment` is preferred when it returns a non-empty text. -/
def seg_or (seg : Option String) (unp : String) : String :=
  match seg with
  | some s => if s == "" then unp else s
  | none => unp

/-! ## Declaration Renderer: `stub_function` and `stub_class` -/

/-- The `lines` list built by `stub_function`: location comment, decorators,
header line, optional docstring block (only when the docstring is non-empty,
because Python tests the string's truthiness), and the unconditional
elision placeholder. -/
def stub_function_lines (node : FuncNode) (source_file indent : String)
    (include_docstrings : Bool) : List String :=
  match node with
  | .mk is_async name args decorator_list returns lineno end_lineno body =>
    let lines := [indent ++ "# " ++ source_file ++ ":" ++ toString lineno ++ "-" ++ toString end_lineno]
    let lines := lines ++ decorator_list.map (fun dec => indent ++ "@" ++ dec)
    let async_str := if is_async then "async " else ""
    let sig := format_arguments args
    let ret := match returns with | some r => " -> " ++ r | none => ""
    let lines := lines ++ [indent ++ async_str ++ "def " ++ name ++ "(" ++ sig ++ ")" ++ ret ++ ":"]
    let body_indent := indent ++ "    "
    let doc := if include_docstrings then get_docstring body else none
    let lines := lines ++
      (match doc with
       | some d => if d == "" then [] else [py_rstrip (_format_docstring d body_indent)]
       | none => [])
    lines ++ [body_indent ++ "..."]

/-- Model of `stub_function`: its `lines`, joined with newlines. -/
def stub_function (node : FuncNode) (source_file indent : String)
    (include_docstrings : Bool) : String :=
  String.intercalate "\n" (stub_function_lines node source_file indent include_docstrings)

mutual

/-- The body loop of `stub_class` over `node.body`, returning the rendered
lines and the `has_content` flag.  A bare string-literal expression
contributes nothing whether or not it is the leading docstring (the leading
one is skipped explicitly by the Python code; a later one matches none of
the `isinstance` branches), so no position index is needed. -/
def stub_class_children (children : StmtList) (source_file body_indent : String)
    (include_docstrings include_private : Bool) : List String × Bool :=
  match children with
  | .nil => ([], false)
  | .cons child rest =>
    let head : List String × Bool :=
      match child with
      | .exprStr _ => ([], false)
      | .annAssign seg unp => ([body_indent ++ seg_or seg unp], true)
      | .assign seg unp => ([body_indent ++ seg_or seg unp], true)
      | .funcDef f =>
        if !include_private && _is_private f.name then ([], false)
        else (["", stub_function f source_file body_indent include_docstrings], true)
      | .classDef c =>
        if !include_private && _is_private c.name then ([], false)
        else (["", stub_class c source_file body_indent include_docstrings include_private], true)
      | .other => ([], false)
    let tail := stub_class_children rest source_file body_indent include_docstrings include_private
    (head.1 ++ tail.1, head.2 || tail.2)

/-- Model of `stub_class`: location comment, decorators, the
`class Name(bases, kw=..., **kw)` header, optional docstring block, the
rendered body statements, and an elision placeholder when nothing else was
produced. -/
def stub_class (node : ClassNode) (source_file indent : String)
    (include_docstrings include_private : Bool) : String :=
  match node with
  | .mk name bases keywords decorator_list lineno end_lineno body =>
    let lines := [indent ++ "# " ++ source_file ++ ":" ++ toString lineno ++ "-" ++ toString end_lineno]
    let lines := lines ++ decorator_list.map (fun dec => indent ++ "@" ++ dec)
    let base_items := bases ++ keywords.map (fun kw =>
      match kw.1 with
      | some a => a ++ "=" ++ kw.2
      | none => "**" ++ kw.2)
    let base_str := if base_items.isEmpty then "" else "(" ++ String.intercalate ", " base_items ++ ")"
    let lines := lines ++ [indent ++ "class " ++ name ++ base_str ++ ":"]
    let body_indent := indent ++ "    "
    let doc := if include_docstrings then get_docstring body else none
    let doc_part : List String × Bool :=
      match doc with
      | some d => if d == "" then ([], false) else ([py_rstrip (_format_docstring d body_indent)], true)
      | none => ([], false)
    let child_part := stub_class_children body source_file body_indent include_docstrings include_private
    let has_content := doc_part.2 || child_part.2
    let lines := lines ++ doc_part.1 ++ child_part.1 ++
      (if has_content then [] else [body_indent ++ "..."])
    String.intercalate "\n" lines

end

/-! ## Auxiliary definitions for stating the claims -/

/-- Text between the triple quotes of a single-line formatted docstring block
`indent + triple-quote + text + triple-quote + newline`: what a re-parse of
the emitted stub recovers as the docstring value. -/
def quoted_text (block indent : String) : String :=
  let inner := block.data.drop (indent.length + 3)
  String.mk (inner.take (inner.length - 4))

/-- A concrete class with four methods, used to observe the private-member
filter: `_helper` is private, `__init__` and `__eq__` are dunders, `helper`
is public. -/
def privacyExampleClass : ClassNode :=
  .mk "C" [] [] [] 1 9
    (.cons (.funcDef (.mk false "_helper" ⟨[], [⟨"self", none⟩], none, [], [], none, []⟩ [] none 2 3 .nil))
    (.cons (.funcDef (.mk false "__init__" ⟨[], [⟨"self", none⟩], none, [], [], none, []⟩ [] none 4 5 .nil))
    (.cons (.funcDef (.mk false "__eq__" ⟨[], [⟨"self", none⟩, ⟨"other", none⟩], none, [], [], none, []⟩ [] none 6 7 .nil))
    (.cons (.funcDef (.mk false "helper" ⟨[], [⟨"self", none⟩], none, [], [], none, []⟩ [] none 8 9 .nil))
    .nil))))

/-! ## General helper lemmas about the string model -/

theorem str_length_data (s : String) : s.data.length = s.length := rfl

theorem str_ne_of_data_ne {s t : String} (h : s.data ≠ t.data) : s ≠ t :=
  fun he => h (congrArg String.data he)

theorem str_append_cancel {s t u : String} (h : s ++ t = s ++ u) : t = u := by
  have hd := congrArg String.data h
  rw [String.data_append, String.data_append] at hd
  exact String.ext (List.append_cancel_left hd)

theorem str_head_ne {s t : String} {c d : Char} {cs ds : List Char}
    (hs : s.data = c :: cs) (ht : t.data = d :: ds) (hcd : c ≠ d) : s ≠ t := by
  refine str_ne_of_data_ne ?_
  rw [hs, ht]
  intro he
  exact hcd (List.head_eq_of_cons_eq he)

theorem str_data_ne_nil {s : String} (h : s ≠ "") : s.data ≠ [] := by
  intro hd
  exact h (String.ext hd)

theorem str_append_eq_empty {s t : String} (h : s ++ t = "") : s = "" ∧ t = "" := by
  have hd := congrArg String.data h
  rw [String.data_append] at hd
  have := List.append_eq_nil.mp hd
  exact ⟨String.ext this.1, String.ext this.2⟩

theorem str_append_ne_single {s t u : String} (hu : u.data.length = 1)
    (hs : s ≠ "") (hne : s ≠ u) : s ++ t ≠ u := by
  intro h
  have hd := congrArg String.data h
  rw [String.data_append] at hd
  obtain ⟨c, hc⟩ : ∃ c, u.data = [c] := by
    cases hu' : u.data with
    | nil => rw [hu'] at hu; simp at hu
    | cons a l =>
      rw [hu'] at hu
      simp at hu
      exact ⟨a, by rw [hu]⟩
  obtain ⟨a, as, ha⟩ : ∃ a as, s.data = a :: as := by
    cases hs' : s.data with
    | nil => exact absurd (String.ext hs') hs
    | cons a l => exact ⟨a, l, rfl⟩
  rw [ha, hc] at hd
  simp only [List.cons_append] at hd
  have h1 : a = c := List.head_eq_of_cons_eq hd
  have h2 : as ++ t.data = [] := List.tail_eq_of_cons_eq hd
  exact hne (String.ext (by rw [ha, hc, h1, (List.append_eq_nil.mp h2).1]))

theorem py_rstrip_data_prefix (s : String) : (py_rstrip s).data <+: s.data := by
  show (List.dropWhile py_ws s.data.reverse).reverse <+: s.data
  have h : List.dropWhile py_ws s.data.reverse <:+ s.data.reverse :=
    List.dropWhile_suffix py_ws
  have := List.reverse_prefix.mpr h
  simpa using this

/-! ## Claim C10: empty parameter list renders as the empty string -/

/-- C10: for a parameter list containing no parameters of any kind
(no positional-only, positional-or-keyword, variadic-positional,
keyword-only, or variadic-keyword parameters), `format_arguments` returns
the empty string — even when stray `defaults` entries are present — so a
function header renders as `def name():` with empty parentheses. -/
theorem C10_empty_signature :
    (∀ node : Arguments, node.posonlyargs = [] → node.args = [] → node.vararg = none →
      node.kwonlyargs = [] → node.kwarg = none → format_arguments node = "") ∧
    stub_function (.mk false "name" ⟨[], [], none, [], [], none, []⟩ [] none 1 2 .nil) "m.py" "" true
      = "# m.py:1-2\ndef name():\n    ..." := by
  constructor
  · intro node h1 h2 h3 h4 h5
    obtain ⟨p, a, v, k, kd, kw, d⟩ := node
    simp only at h1 h2 h3 h4 h5
    subst h1 h2 h3 h4 h5
    rfl
  · decide

theorem C10_witness :
    format_arguments ⟨[], [], none, [], [], none, ["0"]⟩ = "" :=
  C10_empty_signature.1 ⟨[], [], none, [], [], none, ["0"]⟩ rfl rfl rfl rfl rfl

/-! ## Claim C5: privacy predicate and private filtering -/

/-- C5: a dunder name (double underscores on both ends) is never classified
private, whatever the private filter; `_helper` is classified private while
`__init__`, `__eq__` and `helper` are not; and on a class with exactly those
four methods, rendering with the private filter enabled drops `_helper` from
the output and keeps `__init__`, `__eq__` and `helper` (while `_helper` does
appear when the filter is off). -/
theorem C5_privacy_rule :
    (∀ name : String, py_startswith name "__" = true → py_endswith name "__" = true →
      _is_private name = false) ∧
    _is_private "_helper" = true ∧ _is_private "__init__" = false ∧
    _is_private "__eq__" = false ∧ _is_private "helper" = false ∧
    py_contains "_helper" (stub_class privacyExampleClass "m.py" "" true false) = false ∧
    py_contains "__init__" (stub_class privacyExampleClass "m.py" "" true false) = true ∧
    py_contains "__eq__" (stub_class privacyExampleClass "m.py" "" true false) = true ∧
    py_contains "helper" (stub_class privacyExampleClass "m.py" "" true false) = true ∧
    py_contains "_helper" (stub_class privacyExampleClass "m.py" "" true true) = true := by
  refine ⟨?_, by decide, by decide, by decide, by decide,
    by decide, by decide, by decide, by decide, by decide⟩
  intro name h1 h2
  simp [_is_private, h1, h2]

theorem C5_witness :
    (py_startswith "__repr__" "__" = true ∧ py_endswith "__repr__" "__" = true) ∧
      _is_private "__repr__" = false :=
  ⟨⟨by decide, by decide⟩, C5_privacy_rule.1 "__repr__" (by decide) (by decide)⟩

/-! ## Claim C3: docstring formatting is not idempotent -/

/-- C3 counterexample: re-applying the formatter to an already-formatted
docstring block does not reproduce the block; on the single-line docstring
`a` with a four-space indent, the second application wraps the block in a
second layer of quotes. -/
theorem C3_counterexample :
    _format_docstring (_format_docstring "a" "    ") "    " ≠ _format_docstring "a" "    " := by
  decide

theorem quoted_text_round (doc indent : String) :
    quoted_text (indent ++ "\"\"\"" ++ doc ++ "\"\"\"" ++ "\n") indent = doc := by
  have q3 : ("\"\"\"" : String).data = ['"', '"', '"'] := rfl
  have nl : ("\n" : String).data = ['\n'] := rfl
  unfold quoted_text
  have e1 : (indent ++ "\"\"\"" ++ doc ++ "\"\"\"" ++ "\n").data
      = (indent.data ++ ['"', '"', '"']) ++ (doc.data ++ ['"', '"', '"', '\n']) := by
    simp [String.data_append, q3, nl, List.append_assoc]
  simp only [e1]
  have hlen : (indent.data ++ ['"', '"', '"'] : List Char).length = indent.length + 3 := by
    simp [List.length_append]
  rw [← hlen, List.drop_left]
  have hlen2 : (doc.data ++ ['"', '"', '"', '\n'] : List Char).length = doc.length + 4 := by
    simp [List.length_append]
  rw [hlen2]
  have hl3 : doc.length + 4 - 4 = doc.data.length := by
    simp [Nat.add_sub_cancel]
  rw [hl3, List.take_left]

/-- C3 amended: the formatter is deterministic but not idempotent under
re-application; what does hold is the single-line round trip: a single-line
docstring formats to exactly `indent + triple-quote + text + triple-quote +
newline`, the text between the quotes of that block is the original
docstring, and re-formatting that extracted text reproduces the block
exactly.  For multi-line blocks (and for any block fed back whole to the
formatter, which always contains a newline) idempotence fails, as the
counterexample shows. -/
theorem C3_amended_single_line_round_trip (doc indent : String)
    (h : (_docstring_lines doc).length = 1) :
    _format_docstring doc indent = indent ++ "\"\"\"" ++ doc ++ "\"\"\"" ++ "\n" ∧
    quoted_text (_format_docstring doc indent) indent = doc ∧
    _format_docstring (quoted_text (_format_docstring doc indent) indent) indent
      = _format_docstring doc indent := by
  have h1 : _format_docstring doc indent = indent ++ "\"\"\"" ++ doc ++ "\"\"\"" ++ "\n" := by
    unfold _format_docstring
    simp only [h]
    simp
  refine ⟨h1, ?_, ?_⟩
  · rw [h1]
    exact quoted_text_round doc indent
  · rw [h1, quoted_text_round doc indent, h1]

theorem C3_witness :
    (_docstring_lines "Short summary.").length = 1 ∧
      (_format_docstring "Short summary." "    "
          = "    " ++ "\"\"\"" ++ "Short summary." ++ "\"\"\"" ++ "\n" ∧
        quoted_text (_format_docstring "Short summary." "    ") "    " = "Short summary." ∧
        _format_docstring (quoted_text (_format_docstring "Short summary." "    ") "    ") "    "
          = _format_docstring "Short summary." "    ") :=
  ⟨by decide, C3_amended_single_line_round_trip "Short summary." "    " (by decide)⟩

/-! ## Claim C4: the closing-quote rule of the docstring formatter -/

/-- C4 counterexample: the code decides whether to append a closing quote
line with `result.rstrip().endswith(triple-quote)`, not with "ends with a
closing triple-quote on its own line".  On the docstring whose second line
is `b` followed by a literal triple quote, the reconstructed block does not
end with a closing triple-quote on its own line, yet no closing line is
appended, contradicting the claimed rule. -/
theorem C4_counterexample :
    _format_docstring "a\nb\"\"\"" "  " ≠
      _reconstructed_block "a\nb\"\"\"" "  " ++
        (if ends_with_closing_quote_line (_reconstructed_block "a\nb\"\"\"" "  ") then ""
         else "  " ++ "\"\"\"" ++ "\n") := by
  decide

/-- C4 amended: for every multi-line docstring and indent, a closing
triple-quote line at the given indent is appended exactly when the
reconstructed block, with trailing whitespace stripped, does not already end
in the three-character triple-quote sequence — whether or not that sequence
sits on a line of its own. -/
theorem C4_amended_append_rule (doc indent : String)
    (h : (_docstring_lines doc).length ≠ 1) :
    _format_docstring doc indent =
      _reconstructed_block doc indent ++
        (if py_endswith (py_rstrip (_reconstructed_block doc indent)) "\"\"\"" then ""
         else indent ++ "\"\"\"" ++ "\n") := by
  unfold _format_docstring
  have hb : ((_docstring_lines doc).length == 1) = false := by
    simpa using h
  simp only [hb, Bool.false_eq_true, if_false]
  split
  · rw [String.append_empty]
  · simp [String.append_assoc]

theorem C4_witness :
    (_docstring_lines "a\nb").length ≠ 1 ∧
      _format_docstring "a\nb" "  " =
        _reconstructed_block "a\nb" "  " ++
          (if py_endswith (py_rstrip (_reconstructed_block "a\nb" "  ")) "\"\"\"" then ""
           else "  " ++ "\"\"\"" ++ "\n") :=
  ⟨by decide, C4_amended_append_rule "a\nb" "  " (by decide)⟩

/-! ## Claim C2: walker file ordering -/

theorem _sort_key_append : ∀ (d : List String) (x : String),
    _sort_key (d ++ [x]) = d ++ [if x == "__init__.py" then "\x00" else x]
  | [], x => by simp [_sort_key]
  | [p], x => by simp [_sort_key]
  | p :: q :: rest, x => by
    show p :: _sort_key ((q :: rest) ++ [x])
        = (p :: q :: rest) ++ [if x == "__init__.py" then "\x00" else x]
    rw [_sort_key_append (q :: rest) x]
    rfl

theorem py_lt_chars_irrefl (l : List Char) : py_lt_chars l l = false := by
  induction l with
  | nil => rfl
  | cons a as ih =>
    show (if a < a then true else if a < a then false else py_lt_chars as as) = false
    rw [if_neg (lt_irrefl a), if_neg (lt_irrefl a), ih]

theorem py_str_lt_irrefl (s : String) : py_str_lt s s = false :=
  py_lt_chars_irrefl s.data

theorem py_tuple_lt_append (d as bs : List String) :
    py_tuple_lt (d ++ as) (d ++ bs) = py_tuple_lt as bs := by
  induction d with
  | nil => rfl
  | cons p rest ih =>
    show (if py_str_lt p p then true
          else if py_str_lt p p then false
          else py_tuple_lt (rest ++ as) (rest ++ bs)) = py_tuple_lt as bs
    rw [py_str_lt_irrefl]
    simp [ih]

theorem py_tuple_lt_single (f g : String) :
    py_tuple_lt [f] [g] = py_str_lt f g := by
  cases h1 : py_str_lt f g <;> cases h2 : py_str_lt g f <;>
    simp [py_tuple_lt, h1, h2]

theorem nul_lt_char {c : Char} (h : c ≠ '\x00') : '\x00' < c := by
  rw [Char.lt_def]
  have h2 : c.val.toNat ≠ 0 := fun hz => h (Char.ext (UInt32.ext hz))
  show ('\x00').val < c.val
  exact Nat.pos_of_ne_zero h2

theorem py_str_lt_nul (f : String) (hne : f ≠ "") (hc : ∀ c ∈ f.data, c ≠ '\x00') :
    py_str_lt "\x00" f = true := by
  unfold py_str_lt
  have e0 : ("\x00" : String).data = ['\x00'] := rfl
  rw [e0]
  obtain ⟨a, as, ha⟩ : ∃ a as, f.data = a :: as := by
    cases hs : f.data with
    | nil => exact absurd (String.ext hs) hne
    | cons a l => exact ⟨a, l, rfl⟩
  rw [ha]
  have hlt : '\x00' < a := nul_lt_char (hc a (ha ▸ List.mem_cons_self a as))
  show (if '\x00' < a then true else if a < '\x00' then false else py_lt_chars [] as) = true
  rw [if_pos hlt]

/-- C2: for the directory holding exactly `pkg/__init__.py`, `pkg/b.py`,
`pkg/a.py`, `pkg/sub/__init__.py`, `pkg/sub/c.py` (discovered in that
arbitrary order), the walker's sort yields `pkg/__init__.py`, `pkg/a.py`,
`pkg/b.py`, `pkg/sub/__init__.py`, `pkg/sub/c.py`; and in general, within
any one directory `d`, the package initializer's sort key precedes every
sibling's, while two non-initializer siblings compare exactly as their
filenames do lexicographically. -/
theorem C2_walker_order :
    (sorted_py_files
        [["pkg", "__init__.py"], ["pkg", "b.py"], ["pkg", "a.py"],
          ["pkg", "sub", "__init__.py"], ["pkg", "sub", "c.py"]]
      = [["pkg", "__init__.py"], ["pkg", "a.py"], ["pkg", "b.py"],
          ["pkg", "sub", "__init__.py"], ["pkg", "sub", "c.py"]]) ∧
    (∀ (d : List String) (f : String), f ≠ "__init__.py" → f ≠ "" →
      (∀ c ∈ f.data, c ≠ '\x00') →
      py_tuple_lt (_sort_key (d ++ ["__init__.py"])) (_sort_key (d ++ [f])) = true) ∧
    (∀ (d : List String) (f g : String), f ≠ "__init__.py" → g ≠ "__init__.py" →
      py_tuple_lt (_sort_key (d ++ [f])) (_sort_key (d ++ [g])) = py_str_lt f g) := by
  refine ⟨by decide, ?_, ?_⟩
  · intro d f hf hne hc
    rw [_sort_key_append, _sort_key_append]
    simp only [beq_self_eq_true, if_true, beq_iff_eq]
    rw [if_neg hf, py_tuple_lt_append, py_tuple_lt_single]
    exact py_str_lt_nul f hne hc
  · intro d f g hf hg
    rw [_sort_key_append, _sort_key_append]
    simp only [beq_iff_eq]
    rw [if_neg hf, if_neg hg, py_tuple_lt_append, py_tuple_lt_single]

theorem C2_witness :
    ("a.py" ≠ "__init__.py" ∧ "a.py" ≠ "" ∧ (∀ c ∈ ("a.py" : String).data, c ≠ '\x00')) ∧
      py_tuple_lt (_sort_key (["pkg"] ++ ["__init__.py"])) (_sort_key (["pkg"] ++ ["a.py"])) = true :=
  ⟨⟨by decide, by decide, by decide⟩,
    C2_walker_order.2.1 ["pkg"] "a.py" (by decide) (by decide) (by decide)⟩

/-! ## Claim C1: positional defaults align to the end -/

/-- C1: for a parameter list whose `defaults` count `D` is at most the
combined positional count `P+Q`, the positional loop attaches a default to
the parameter at index `i` of `posonlyargs + args` iff `i >= (P+Q) - D`, and
the default used is `defaults[i - ((P+Q) - D)]`; below that threshold the
parameter renders bare.  This holds for arbitrary mixes of positional-only
and positional-or-keyword parameters, so the defaults go to exactly the last
`D` positional parameters, in order. -/
theorem C1_defaults_align (node : Arguments)
    (hD : node.defaults.length ≤ (node.posonlyargs ++ node.args).length)
    (i : Nat) (a : Arg)
    (hi : i < (node.posonlyargs ++ node.args).length) :
    format_pos_item node i a =
      if (node.posonlyargs ++ node.args).length - node.defaults.length ≤ i then
        format_arg_base a ++ " = " ++
          node.defaults.getD
            (i - ((node.posonlyargs ++ node.args).length - node.defaults.length)) ""
      else format_arg_base a := by
  simp only [format_pos_item]
  rcases le_or_lt ((node.posonlyargs ++ node.args).length - node.defaults.length) i with h | h
  · rw [if_pos h]
    have hc : (0 : Int) ≤ (i : Int) -
        (((node.posonlyargs ++ node.args).length : Int) - (node.defaults.length : Int)) := by
      omega
    rw [if_pos hc]
    have hidx : ((i : Int) -
        (((node.posonlyargs ++ node.args).length : Int) - (node.defaults.length : Int))).toNat
        = i - ((node.posonlyargs ++ node.args).length - node.defaults.length) := by
      omega
    rw [hidx]
  · have hc : ¬ ((0 : Int) ≤ (i : Int) -
        (((node.posonlyargs ++ node.args).length : Int) - (node.defaults.length : Int))) := by
      omega
    rw [if_neg hc,
      if_neg (show ¬ ((node.posonlyargs ++ node.args).length - node.defaults.length ≤ i) by omega)]

theorem C1_witness :
    ((⟨[⟨"a", none⟩], [⟨"b", none⟩, ⟨"c", none⟩], none, [], [], none,
        ["1", "2"]⟩ : Arguments).defaults.length ≤
      ((⟨[⟨"a", none⟩], [⟨"b", none⟩, ⟨"c", none⟩], none, [], [], none,
          ["1", "2"]⟩ : Arguments).posonlyargs ++
        (⟨[⟨"a", none⟩], [⟨"b", none⟩, ⟨"c", none⟩], none, [], [], none,
          ["1", "2"]⟩ : Arguments).args).length ∧
      1 < ((⟨[⟨"a", none⟩], [⟨"b", none⟩, ⟨"c", none⟩], none, [], [], none,
          ["1", "2"]⟩ : Arguments).posonlyargs ++
        (⟨[⟨"a", none⟩], [⟨"b", none⟩, ⟨"c", none⟩], none, [], [], none,
          ["1", "2"]⟩ : Arguments).args).length) ∧
    format_pos_item
        ⟨[⟨"a", none⟩], [⟨"b", none⟩, ⟨"c", none⟩], none, [], [], none, ["1", "2"]⟩ 1 ⟨"b", none⟩ =
      if ((⟨[⟨"a", none⟩], [⟨"b", none⟩, ⟨"c", none⟩], none, [], [], none,
            ["1", "2"]⟩ : Arguments).posonlyargs ++
          (⟨[⟨"a", none⟩], [⟨"b", none⟩, ⟨"c", none⟩], none, [], [], none,
            ["1", "2"]⟩ : Arguments).args).length -
          (⟨[⟨"a", none⟩], [⟨"b", none⟩, ⟨"c", none⟩], none, [], [], none,
            ["1", "2"]⟩ : Arguments).defaults.length ≤ 1 then
        format_arg_base ⟨"b", none⟩ ++ " = " ++
          (⟨[⟨"a", none⟩], [⟨"b", none⟩, ⟨"c", none⟩], none, [], [], none,
            ["1", "2"]⟩ : Arguments).defaults.getD
            (1 - (((⟨[⟨"a", none⟩], [⟨"b", none⟩, ⟨"c", none⟩], none, [], [], none,
                ["1", "2"]⟩ : Arguments).posonlyargs ++
              (⟨[⟨"a", none⟩], [⟨"b", none⟩, ⟨"c", none⟩], none, [], [], none,
                ["1", "2"]⟩ : Arguments).args).length -
              (⟨[⟨"a", none⟩], [⟨"b", none⟩, ⟨"c", none⟩], none, [], [], none,
                ["1", "2"]⟩ : Arguments).defaults.length)) ""
      else format_arg_base ⟨"b", none⟩ :=
  ⟨⟨by decide, by decide⟩,
    C1_defaults_align
      ⟨[⟨"a", none⟩], [⟨"b", none⟩, ⟨"c", none⟩], none, [], [], none, ["1", "2"]⟩
      (by decide) 1 ⟨"b", none⟩ (by decide)⟩

/-! ## Claim C8: keyword-only defaults pair one-to-one -/

theorem enumFrom_map_getD (f : Nat × Arg → String) :
    ∀ (l : List Arg) (n i : Nat), i < l.length →
      ((List.enumFrom n l).map f).getD i "" = f (n + i, l.getD i ⟨"", none⟩)
  | [], _, i, h => absurd h (by simp)
  | a :: l, n, 0, _ => by simp [List.enumFrom]
  | a :: l, n, i + 1, h => by
    have ih := enumFrom_map_getD f l (n + 1) i (by simpa using h)
    simp only [List.enumFrom, List.map_cons, List.getD_cons_succ]
    rw [ih]
    have harith : n + 1 + i = n + (i + 1) := by omega
    rw [harith]

/-- C8: the keyword-only loop renders the parameters in declaration order
(one fragment per parameter, same length), the fragment at index `i` uses
exactly `kw_defaults[i]` (appending ` = default` only when that entry is
present), and the whole rendering is independent of the positional
`defaults` list, i.e. of the trailing-alignment rule. -/
theorem C8_kwonly_defaults (node : Arguments) :
    (format_kwonly_parts node).length = node.kwonlyargs.length ∧
    (∀ i : Nat, i < node.kwonlyargs.length →
      (format_kwonly_parts node).getD i "" =
        (match node.kw_defaults.getD i none with
         | some d => format_arg_base (node.kwonlyargs.getD i ⟨"", none⟩) ++ " = " ++ d
         | none => format_arg_base (node.kwonlyargs.getD i ⟨"", none⟩))) ∧
    (∀ ds : List String,
      format_kwonly_parts
          ⟨node.posonlyargs, node.args, node.vararg, node.kwonlyargs,
            node.kw_defaults, node.kwarg, ds⟩
        = format_kwonly_parts node) := by
  refine ⟨by simp [format_kwonly_parts], ?_, fun ds => rfl⟩
  intro i hi
  unfold format_kwonly_parts
  have he : node.kwonlyargs.enum = List.enumFrom 0 node.kwonlyargs := rfl
  rw [he]
  have := enumFrom_map_getD
    (fun p =>
      match node.kw_defaults.getD p.1 none with
      | some d => format_arg_base p.2 ++ " = " ++ d
      | none => format_arg_base p.2)
    node.kwonlyargs 0 i hi
  simpa using this

theorem C8_witness :
    1 < ((⟨[], [], none, [⟨"x", none⟩, ⟨"y", none⟩], [none, some "2"], none,
        ["9"]⟩ : Arguments)).kwonlyargs.length ∧
    (format_kwonly_parts
        ⟨[], [], none, [⟨"x", none⟩, ⟨"y", none⟩], [none, some "2"], none, ["9"]⟩).getD 1 "" =
      (match (⟨[], [], none, [⟨"x", none⟩, ⟨"y", none⟩], [none, some "2"], none,
          ["9"]⟩ : Arguments).kw_defaults.getD 1 none with
       | some d => format_arg_base
          ((⟨[], [], none, [⟨"x", none⟩, ⟨"y", none⟩], [none, some "2"], none,
            ["9"]⟩ : Arguments).kwonlyargs.getD 1 ⟨"", none⟩) ++ " = " ++ d
       | none => format_arg_base
          ((⟨[], [], none, [⟨"x", none⟩, ⟨"y", none⟩], [none, some "2"], none,
            ["9"]⟩ : Arguments).kwonlyargs.getD 1 ⟨"", none⟩)) :=
  ⟨by decide,
    (C8_kwonly_defaults
      ⟨[], [], none, [⟨"x", none⟩, ⟨"y", none⟩], [none, some "2"], none, ["9"]⟩).2.1
      1 (by decide)⟩

/-! ## Claims C6 and C7: the `/` and `*` markers -/

theorem format_pos_item_shape (node : Arguments) (i : Nat) (a : Arg) :
    ∃ r, format_pos_item node i a = a.arg ++ r := by
  simp only [format_pos_item]
  split
  · refine ⟨(match a.annot with | some t => ": " ++ t | none => "") ++
      (" = " ++ node.defaults.getD (((i : Int) -
        (((node.posonlyargs ++ node.args).length : Int) -
          (node.defaults.length : Int))).toNat) ""), ?_⟩
    simp only [format_arg_base]
    rw [String.append_assoc, String.append_assoc]
  · exact ⟨(match a.annot with | some t => ": " ++ t | none => ""), rfl⟩

theorem kwonly_item_shape (node : Arguments) (p : Nat × Arg) :
    ∃ r,
      (match node.kw_defaults.getD p.1 none with
       | some d => format_arg_base p.2 ++ " = " ++ d
       | none => format_arg_base p.2) = p.2.arg ++ r := by
  cases node.kw_defaults.getD p.1 none with
  | some d =>
    refine ⟨(match p.2.annot with | some t => ": " ++ t | none => "") ++ (" = " ++ d), ?_⟩
    simp only [format_arg_base]
    rw [String.append_assoc, String.append_assoc]
  | none => exact ⟨(match p.2.annot with | some t => ": " ++ t | none => ""), rfl⟩

theorem enumFrom_snd_mem {p : Nat × Arg} {n : Nat} {l : List Arg}
    (h : p ∈ List.enumFrom n l) : p.2 ∈ l := by
  obtain ⟨i, x⟩ := p
  have hm := List.mem_enumFrom h
  rw [hm.2.2]
  exact List.getElem_mem _

theorem pos_parts_mem {node : Arguments} {s : String} (h : s ∈ format_pos_parts node) :
    s = "/" ∨ ∃ p : Nat × Arg, p.2 ∈ node.posonlyargs ++ node.args ∧
      s = format_pos_item node p.1 p.2 := by
  simp only [format_pos_parts] at h
  rw [show (node.posonlyargs ++ node.args).enum
      = List.enumFrom 0 (node.posonlyargs ++ node.args) from rfl] at h
  rw [List.mem_flatMap] at h
  obtain ⟨p, hp, hs⟩ := h
  have hmem : p.2 ∈ node.posonlyargs ++ node.args := enumFrom_snd_mem hp
  split at hs
  · simp only [List.mem_cons, List.mem_singleton, List.not_mem_nil, or_false] at hs
    rcases hs with h1 | h1
    · exact Or.inr ⟨p, hmem, h1⟩
    · exact Or.inl h1
  · simp only [List.mem_singleton] at hs
    exact Or.inr ⟨p, hmem, hs⟩

theorem star_parts_cases {node : Arguments} {s : String} (h : s ∈ format_star_parts node) :
    (∃ v, node.vararg = some v ∧ s = "*" ++ format_arg_base v) ∨
      (node.vararg = none ∧ node.kwonlyargs ≠ [] ∧ s = "*") := by
  unfold format_star_parts at h
  cases hv : node.vararg with
  | some v =>
    rw [hv] at h
    simp only [List.mem_singleton] at h
    exact Or.inl ⟨v, rfl, h⟩
  | none =>
    rw [hv] at h
    by_cases he : node.kwonlyargs.isEmpty = true
    · rw [if_pos he] at h
      simp at h
    · rw [if_neg he] at h
      simp only [List.mem_singleton] at h
      refine Or.inr ⟨rfl, fun hk => he (by rw [hk]; rfl), h⟩

theorem kwonly_parts_mem {node : Arguments} {s : String} (h : s ∈ format_kwonly_parts node) :
    ∃ a ∈ node.kwonlyargs, ∃ r, s = a.arg ++ r := by
  unfold format_kwonly_parts at h
  rw [show node.kwonlyargs.enum = List.enumFrom 0 node.kwonlyargs from rfl] at h
  rw [List.mem_map] at h
  obtain ⟨p, hp, hs⟩ := h
  obtain ⟨r, hr⟩ := kwonly_item_shape node p
  exact ⟨p.2, enumFrom_snd_mem hp, r, by rw [← hs]; exact hr⟩

theorem kwarg_parts_cases {node : Arguments} {s : String} (h : s ∈ format_kwarg_parts node) :
    ∃ k, node.kwarg = some k ∧ s = "**" ++ format_arg_base k := by
  unfold format_kwarg_parts at h
  cases hk : node.kwarg with
  | some k =>
    rw [hk] at h
    simp only [List.mem_singleton] at h
    exact ⟨k, rfl, h⟩
  | none =>
    rw [hk] at h
    simp at h

theorem pos_flatMap_marker (node : Arguments) (P : Nat) :
    ∀ (xs : List Arg) (n : Nat), n + xs.length = P → xs ≠ [] →
      (List.enumFrom n xs).flatMap
          (fun p => if p.1 == P - 1 && !(P == 0) then [format_pos_item node p.1 p.2, "/"]
                    else [format_pos_item node p.1 p.2])
        = (List.enumFrom n xs).map (fun p => format_pos_item node p.1 p.2) ++ ["/"]
  | [], _, _, hne => absurd rfl hne
  | [a], n, hP, _ => by
    simp only [List.length_cons, List.length_nil] at hP
    have hc : (n == P - 1 && !(P == 0)) = true := by
      have h1 : (n == P - 1) = true := by
        simp only [beq_iff_eq]
        omega
      have h2 : (P == 0) = false := by
        simp only [beq_eq_false_iff_ne]
        omega
      rw [h1, h2]
      rfl
    rw [show List.enumFrom n [a] = [(n, a)] from rfl]
    simp only [List.flatMap_cons, List.flatMap_nil, List.map_cons, List.map_nil, hc, if_true]
    rfl
  | a :: b :: xs, n, hP, _ => by
    have ih := pos_flatMap_marker node P (b :: xs) (n + 1)
      (by simp only [List.length_cons] at hP ⊢; omega) (by simp)
    have hc : (n == P - 1 && !(P == 0)) = false := by
      have h1 : (n == P - 1) = false := by
        simp only [beq_eq_false_iff_ne]
        simp only [List.length_cons] at hP
        omega
      rw [h1, Bool.false_and]
    rw [show List.enumFrom n (a :: b :: xs)
        = (n, a) :: List.enumFrom (n + 1) (b :: xs) from rfl]
    rw [List.flatMap_cons, List.map_cons]
    simp only [hc, Bool.false_eq_true, if_false]
    rw [ih]
    rfl

theorem pos_flatMap_plain (node : Arguments) (P : Nat) :
    ∀ (xs : List Arg) (n : Nat), P ≤ n →
      (List.enumFrom n xs).flatMap
          (fun p => if p.1 == P - 1 && !(P == 0) then [format_pos_item node p.1 p.2, "/"]
                    else [format_pos_item node p.1 p.2])
        = (List.enumFrom n xs).map (fun p => format_pos_item node p.1 p.2)
  | [], _, _ => rfl
  | a :: xs, n, hPn => by
    have ih := pos_flatMap_plain node P xs (n + 1) (by omega)
    have hc : (n == P - 1 && !(P == 0)) = false := by
      by_cases hP : P = 0
      · subst hP
        simp
      · have h1 : (n == P - 1) = false := by
          simp only [beq_eq_false_iff_ne]
          omega
        rw [h1, Bool.false_and]
    rw [show List.enumFrom n (a :: xs) = (n, a) :: List.enumFrom (n + 1) xs from rfl]
    rw [List.flatMap_cons, List.map_cons]
    simp only [hc, Bool.false_eq_true, if_false]
    rw [ih]
    rfl

theorem pos_parts_structure (node : Arguments) (hne : node.posonlyargs ≠ []) :
    format_pos_parts node =
      (List.enumFrom 0 node.posonlyargs).map (fun p => format_pos_item node p.1 p.2)
        ++ ["/"] ++
      (List.enumFrom node.posonlyargs.length node.args).map
        (fun p => format_pos_item node p.1 p.2) := by
  simp only [format_pos_parts]
  rw [show (node.posonlyargs ++ node.args).enum
      = List.enumFrom 0 (node.posonlyargs ++ node.args) from rfl]
  rw [List.enumFrom_append, List.flatMap_append]
  rw [pos_flatMap_marker node node.posonlyargs.length node.posonlyargs 0 (by simp) hne]
  rw [pos_flatMap_plain node node.posonlyargs.length node.args (0 + node.posonlyargs.length)
    (by omega)]
  rw [show (0 + node.posonlyargs.length) = node.posonlyargs.length from by omega]

/-- C6: for parameter lists whose names are well formed (non-empty, not the
literal marker tokens — true of every Python identifier), the `parts` list
of `format_arguments` contains a bare `/` fragment iff at least one
positional-only parameter exists, and when one exists the `/` marker sits
immediately after the fragments of the positional-only group and before
those of the positional-or-keyword group. -/
theorem C6_slash_marker (node : Arguments)
    (hpos : ∀ a ∈ node.posonlyargs ++ node.args, a.arg ≠ "" ∧ a.arg ≠ "/")
    (hkw : ∀ a ∈ node.kwonlyargs, a.arg ≠ "" ∧ a.arg ≠ "/") :
    (("/" ∈ format_all_parts node) ↔ node.posonlyargs ≠ []) ∧
    (node.posonlyargs ≠ [] →
      format_pos_parts node =
        (List.enumFrom 0 node.posonlyargs).map (fun p => format_pos_item node p.1 p.2)
          ++ ["/"] ++
        (List.enumFrom node.posonlyargs.length node.args).map
          (fun p => format_pos_item node p.1 p.2)) := by
  refine ⟨⟨?_, ?_⟩, pos_parts_structure node⟩
  · intro h
    intro hnil
    unfold format_all_parts at h
    rcases List.mem_append.mp h with h | h
    · rcases List.mem_append.mp h with h | h
      · rcases List.mem_append.mp h with h | h
        · -- positional fragments: with no positional-only parameter no marker exists
          have hplain : format_pos_parts node =
              (List.enumFrom 0 (node.posonlyargs ++ node.args)).map
                (fun p => format_pos_item node p.1 p.2) := by
            simp only [format_pos_parts]
            rw [show (node.posonlyargs ++ node.args).enum
                = List.enumFrom 0 (node.posonlyargs ++ node.args) from rfl]
            rw [show node.posonlyargs.length = 0 from by rw [hnil]; rfl]
            exact pos_flatMap_plain node 0 (node.posonlyargs ++ node.args) 0 (le_refl 0)
          rw [hplain, List.mem_map] at h
          obtain ⟨p, hp, hs⟩ := h
          obtain ⟨r, hr⟩ := format_pos_item_shape node p.1 p.2
          have hg := hpos p.2 (enumFrom_snd_mem hp)
          exact str_append_ne_single (by decide) hg.1 hg.2 (by rw [← hr, hs])
        · rcases star_parts_cases h with ⟨v, _, hs⟩ | ⟨_, _, hs⟩
          · exact str_append_ne_single (by decide) (by decide) (by decide) hs.symm
          · exact absurd hs.symm (by decide)
      · obtain ⟨a, ha, r, hr⟩ := kwonly_parts_mem h
        exact str_append_ne_single (by decide) (hkw a ha).1 (hkw a ha).2 hr.symm
    · obtain ⟨k, _, hk⟩ := kwarg_parts_cases h
      exact str_append_ne_single (by decide) (by decide) (by decide) hk.symm
  · intro hne
    unfold format_all_parts
    rw [pos_parts_structure node hne]
    simp

theorem C6_witness :
    ((∀ a ∈ (⟨[⟨"x", none⟩], [⟨"y", none⟩], none, [], [], none, []⟩ : Arguments).posonlyargs ++
        (⟨[⟨"x", none⟩], [⟨"y", none⟩], none, [], [], none, []⟩ : Arguments).args,
        a.arg ≠ "" ∧ a.arg ≠ "/") ∧
      (∀ a ∈ (⟨[⟨"x", none⟩], [⟨"y", none⟩], none, [], [], none, []⟩ : Arguments).kwonlyargs,
        a.arg ≠ "" ∧ a.arg ≠ "/")) ∧
    (("/" ∈ format_all_parts ⟨[⟨"x", none⟩], [⟨"y", none⟩], none, [], [], none, []⟩) ↔
      (⟨[⟨"x", none⟩], [⟨"y", none⟩], none, [], [], none, []⟩ : Arguments).posonlyargs ≠ []) :=
  ⟨⟨by decide, by decide⟩,
    (C6_slash_marker ⟨[⟨"x", none⟩], [⟨"y", none⟩], none, [], [], none, []⟩
      (by decide) (by decide)).1⟩

/-- C7: for parameter lists with well-formed names, the `parts` list of
`format_arguments` contains a bare `*` fragment iff there is no
variadic-positional parameter and at least one keyword-only parameter
exists; and when a variadic-positional parameter exists, the star step
renders `*name` (with its optional annotation) in place of the marker. -/
theorem C7_star_marker (node : Arguments)
    (hpos : ∀ a ∈ node.posonlyargs ++ node.args, a.arg ≠ "" ∧ a.arg ≠ "*")
    (hkw : ∀ a ∈ node.kwonlyargs, a.arg ≠ "" ∧ a.arg ≠ "*")
    (hvar : ∀ v, node.vararg = some v → v.arg ≠ "") :
    (("*" ∈ format_all_parts node) ↔ (node.vararg = none ∧ node.kwonlyargs ≠ [])) ∧
    (∀ v, node.vararg = some v → format_star_parts node = ["*" ++ format_arg_base v]) := by
  constructor
  · constructor
    · intro h
      unfold format_all_parts at h
      rcases List.mem_append.mp h with h | h
      · rcases List.mem_append.mp h with h | h
        · rcases List.mem_append.mp h with h | h
          · rcases pos_parts_mem h with h1 | ⟨p, hp, hs⟩
            · exact absurd h1 (by decide)
            · obtain ⟨r, hr⟩ := format_pos_item_shape node p.1 p.2
              have hg := hpos p.2 hp
              exact absurd (by rw [← hr, hs] : p.2.arg ++ r = "*").symm
                (Ne.symm (str_append_ne_single (by decide) hg.1 hg.2))
          · rcases star_parts_cases h with ⟨v, hv, hs⟩ | ⟨hv, hk, _⟩
            · exfalso
              have hcancel : "*" ++ format_arg_base v = "*" ++ "" := by
                rw [String.append_empty]
                exact hs.symm
              have hbase : format_arg_base v = "" := str_append_cancel hcancel
              have h0 : v.arg ++ (match v.annot with | some t => ": " ++ t | none => "") = "" :=
                hbase
              have : v.arg = "" := (str_append_eq_empty h0).1
              exact hvar v hv this
            · exact ⟨hv, hk⟩
        · obtain ⟨a, ha, r, hr⟩ := kwonly_parts_mem h
          exact absurd hr.symm (str_append_ne_single (by decide) (hkw a ha).1 (hkw a ha).2)
      · obtain ⟨k, _, hk⟩ := kwarg_parts_cases h
        exact absurd hk.symm (str_append_ne_single (by decide) (by decide) (by decide))
    · rintro ⟨hv, hk⟩
      unfold format_all_parts
      have hstar : format_star_parts node = ["*"] := by
        unfold format_star_parts
        rw [hv]
        have he : node.kwonlyargs.isEmpty = false := by
          cases hkc : node.kwonlyargs with
          | nil => exact absurd hkc hk
          | cons a l => rfl
        rw [he]
        rfl
      rw [hstar]
      simp
  · intro v hv
    unfold format_star_parts
    rw [hv]

theorem C7_witness :
    ((∀ a ∈ (⟨[], [⟨"y", none⟩], none, [⟨"z", none⟩], [none], none, []⟩ : Arguments).posonlyargs ++
        (⟨[], [⟨"y", none⟩], none, [⟨"z", none⟩], [none], none, []⟩ : Arguments).args,
        a.arg ≠ "" ∧ a.arg ≠ "*") ∧
      (∀ a ∈ (⟨[], [⟨"y", none⟩], none, [⟨"z", none⟩], [none], none, []⟩ : Arguments).kwonlyargs,
        a.arg ≠ "" ∧ a.arg ≠ "*") ∧
      (∀ v, (⟨[], [⟨"y", none⟩], none, [⟨"z", none⟩], [none], none, []⟩ : Arguments).vararg
          = some v → v.arg ≠ "")) ∧
    (("*" ∈ format_all_parts ⟨[], [⟨"y", none⟩], none, [⟨"z", none⟩], [none], none, []⟩) ↔
      ((⟨[], [⟨"y", none⟩], none, [⟨"z", none⟩], [none], none, []⟩ : Arguments).vararg = none ∧
        (⟨[], [⟨"y", none⟩], none, [⟨"z", none⟩], [none], none, []⟩ : Arguments).kwonlyargs ≠ [])) :=
  ⟨⟨by decide, by decide, by decide⟩,
    (C7_star_marker ⟨[], [⟨"y", none⟩], none, [⟨"z", none⟩], [none], none, []⟩
      (by decide) (by decide) (by decide)).1⟩

/-! ## Claim C9: unconditional elision of function bodies -/

theorem foldl_step_extract (indent : String) :
    ∀ (ls : List String) (acc : String),
      ∃ r, ls.foldl
          (fun result line =>
            if py_strip line == "" then result ++ "\n" else result ++ indent ++ line ++ "\n")
          acc
        = acc ++ r
  | [], acc => ⟨"", (String.append_empty acc).symm⟩
  | l :: ls, acc => by
    have hstep : ∃ t,
        (if py_strip l == "" then acc ++ "\n" else acc ++ indent ++ l ++ "\n") = acc ++ t := by
      split
      · exact ⟨"\n", rfl⟩
      · exact ⟨indent ++ (l ++ "\n"), by rw [String.append_assoc, String.append_assoc]⟩
    obtain ⟨t, ht⟩ := hstep
    obtain ⟨r, hr⟩ := foldl_step_extract indent ls
      (if py_strip l == "" then acc ++ "\n" else acc ++ indent ++ l ++ "\n")
    refine ⟨t ++ r, ?_⟩
    rw [show (l :: ls).foldl
        (fun result line =>
          if py_strip line == "" then result ++ "\n" else result ++ indent ++ line ++ "\n")
        acc
      = ls.foldl
          (fun result line =>
            if py_strip line == "" then result ++ "\n" else result ++ indent ++ line ++ "\n")
          (if py_strip l == "" then acc ++ "\n" else acc ++ indent ++ l ++ "\n") from rfl]
    rw [hr, ht, String.append_assoc]

theorem reconstructed_quote_start (doc indent : String) :
    ∃ r, _reconstructed_block doc indent = (indent ++ "\"\"\"") ++ r := by
  simp only [_reconstructed_block]
  obtain ⟨r, hr⟩ := foldl_step_extract indent ((_docstring_lines doc).drop 1)
    (indent ++ "\"\"\"" ++ (_docstring_lines doc).headD "" ++ "\n")
  refine ⟨((_docstring_lines doc).headD "" ++ "\n") ++ r, ?_⟩
  rw [hr]
  simp [String.append_assoc]

theorem format_docstring_quote_start (d bi : String) :
    ∃ r, _format_docstring d bi = (bi ++ "\"\"\"") ++ r := by
  simp only [_format_docstring]
  split
  · exact ⟨d ++ ("\"\"\"" ++ "\n"), by simp [String.append_assoc]⟩
  · obtain ⟨r, hr⟩ := reconstructed_quote_start d bi
    split
    · exact ⟨r, hr⟩
    · exact ⟨r ++ (bi ++ ("\"\"\"" ++ "\n")), by rw [hr]; simp [String.append_assoc]⟩

theorem docblock_rstrip_ne (d bi : String) :
    py_rstrip (_format_docstring d bi) ≠ bi ++ "..." := by
  intro h
  obtain ⟨r, hr⟩ := format_docstring_quote_start d bi
  have hp := py_rstrip_data_prefix (_format_docstring d bi)
  rw [h, hr] at hp
  rw [String.data_append, String.data_append, String.data_append, List.append_assoc] at hp
  have h2 := (List.prefix_append_right_inj bi.data).mp hp
  have e1 : ("..." : String).data = '.' :: ['.', '.'] := rfl
  have e2 : ("\"\"\"" : String).data ++ r.data = '"' :: (['"', '"'] ++ r.data) := rfl
  rw [e1, e2] at h2
  exact absurd (List.cons_prefix_cons.mp h2).1 (by decide)

theorem append_headed_ne (w : String) {u v : String} {c d : Char} {cs ds : List Char}
    (hu : u.data = c :: cs) (hv : v.data = d :: ds) (hcd : c ≠ d) : w ++ u ≠ w ++ v :=
  fun h => str_head_ne hu hv hcd (str_append_cancel h)

theorem count_concat_eq_one {A : String} (X : List String) (h : A ∉ X) :
    List.count A (X ++ [A]) = 1 := by
  rw [List.count_append, List.count_eq_zero.mpr h]
  simp [List.count_cons]

theorem elision_not_mem (indent rest1 rest2 : String) (decorator_list : List String)
    (is_async : Bool) (docpart : List String)
    (hdoc : ∀ s ∈ docpart, ∃ d, s = py_rstrip (_format_docstring d (indent ++ "    "))) :
    (indent ++ ("    " ++ "...")) ∉
      ([indent ++ ("# " ++ rest1)]
        ++ decorator_list.map (fun dec => indent ++ ("@" ++ dec))
        ++ [indent ++ ((if is_async then "async " else "") ++ ("def " ++ rest2))]
        ++ docpart) := by
  have hAdata : ("    " ++ "..." : String).data
      = ' ' :: ([' ', ' ', ' '] ++ ("..." : String).data) := by
    rw [String.data_append]; rfl
  intro hmem
  rcases List.mem_append.mp hmem with hmem | hmem
  · rcases List.mem_append.mp hmem with hmem | hmem
    · rcases List.mem_append.mp hmem with hmem | hmem
      · -- the location comment line starts with the hash character
        simp only [List.mem_singleton] at hmem
        exact append_headed_ne indent hAdata
          (show ("# " ++ rest1).data = '#' :: ([' '] ++ rest1.data) by
            rw [String.data_append]; rfl)
          (by decide) hmem
      · -- decorator lines start with the at sign
        rw [List.mem_map] at hmem
        obtain ⟨dec, _, hdec⟩ := hmem
        exact append_headed_ne indent
          (show ("@" ++ dec).data = '@' :: ([] ++ dec.data) by
            rw [String.data_append]; rfl)
          hAdata (by decide) hdec
    · -- the header line starts with `async ` or `def `
      simp only [List.mem_singleton] at hmem
      cases is_async with
      | true =>
        exact append_headed_ne indent hAdata
          (show ((if (true : Bool) then "async " else "") ++ ("def " ++ rest2)).data
              = 'a' :: (['s', 'y', 'n', 'c', ' '] ++ ("def " ++ rest2).data) by
            rw [String.data_append]; rfl)
          (by decide) hmem
      | false =>
        exact append_headed_ne indent hAdata
          (show ((if (false : Bool) then "async " else "") ++ ("def " ++ rest2)).data
              = 'd' :: (['e', 'f', ' '] ++ rest2.data) by
            rw [String.data_append, String.data_append]; rfl)
          (by decide) hmem
  · -- the docstring block never collapses to the placeholder line
    obtain ⟨dd, hdd⟩ := hdoc _ hmem
    exact docblock_rstrip_ne dd (indent ++ "    ")
      (by rw [← hdd, ← String.append_assoc])

/-- C9: for every function or async-function declaration node, whatever its
body, the rendered lines end with the elision placeholder line at one indent
level deeper, that placeholder line occurs exactly once — even when a
docstring block is present — and the rendered stub depends on the body only
through its docstring, so no original body statement ever appears. -/
theorem C9_elision (is_async : Bool) (name : String) (args : Arguments)
    (decorator_list : List String) (ret : Option String)
    (lineno end_lineno : Nat) (body : StmtList)
    (source_file indent : String) (include_docstrings : Bool) :
    (stub_function_lines (.mk is_async name args decorator_list ret lineno end_lineno body)
        source_file indent include_docstrings).getLast?
      = some (indent ++ "    " ++ "...") ∧
    List.count (indent ++ "    " ++ "...")
      (stub_function_lines (.mk is_async name args decorator_list ret lineno end_lineno body)
        source_file indent include_docstrings) = 1 ∧
    (∀ body' : StmtList, get_docstring body' = get_docstring body →
      stub_function (.mk is_async name args decorator_list ret lineno end_lineno body')
          source_file indent include_docstrings
        = stub_function (.mk is_async name args decorator_list ret lineno end_lineno body)
            source_file indent include_docstrings) := by
  have hlines : stub_function_lines
      (.mk is_async name args decorator_list ret lineno end_lineno body)
      source_file indent include_docstrings
    = ([indent ++ "# " ++ source_file ++ ":" ++ toString lineno ++ "-" ++ toString end_lineno]
        ++ decorator_list.map (fun dec => indent ++ "@" ++ dec)
        ++ [indent ++ (if is_async then "async " else "") ++ "def " ++ name ++ "("
            ++ format_arguments args ++ ")"
            ++ (match ret with | some r => " -> " ++ r | none => "") ++ ":"]
        ++ (match (if include_docstrings then get_docstring body else none) with
            | some d => if d == "" then []
                else [py_rstrip (_format_docstring d (indent ++ "    "))]
            | none => []))
      ++ [indent ++ "    " ++ "..."] := rfl
  refine ⟨?_, ?_, ?_⟩
  · rw [hlines]
    exact List.getLast?_concat _
  · rw [hlines]
    apply count_concat_eq_one
    simp only [String.append_assoc]
    apply elision_not_mem
    intro s hs
    cases hdoc : (if include_docstrings then get_docstring body else none) with
    | none =>
      rw [hdoc] at hs
      exact absurd hs (by simp)
    | some d =>
      rw [hdoc] at hs
      have hs2 : s ∈ (if d == "" then ([] : List String)
          else [py_rstrip (_format_docstring d (indent ++ "    "))]) := hs
      by_cases hd : (d == "") = true
      · rw [if_pos hd] at hs2
        exact absurd hs2 (by simp)
      · rw [if_neg hd] at hs2
        simp only [List.mem_singleton] at hs2
        exact ⟨d, hs2⟩
  · intro body' hb
    simp only [stub_function, stub_function_lines, hb]

theorem C9_witness :
    get_docstring (.cons (.exprStr "D") (.cons .other .nil)) = get_docstring (.cons (.exprStr "D") .nil) ∧
    stub_function
        (.mk false "f" ⟨[], [], none, [], [], none, []⟩ [] none 1 2
          (.cons (.exprStr "D") (.cons .other .nil))) "m.py" "" true
      = stub_function
          (.mk false "f" ⟨[], [], none, [], [], none, []⟩ [] none 1 2
            (.cons (.exprStr "D") .nil)) "m.py" "" true :=
  ⟨by decide,
    (C9_elision false "f" ⟨[], [], none, [], [], none, []⟩ [] none 1 2
        (.cons (.exprStr "D") .nil) "m.py" "" true).2.2
      (.cons (.exprStr "D") (.cons .other .nil)) (by decide)⟩
